import Mathlib

/-!
Shallow embedding of the neighbor samplers, preprocessors and aggregators of
`nn_modules.py` (pytorch-graphsage), together with theorems settling the
specification claims about them.

Conventions used throughout:
* integer tensors (node ids) are lists of naturals; float tensors are lists
  of lists of rationals, one inner list per row;
* the process-wide random stream is passed in explicitly (a permutation for
  `torch.randperm`, a list of draws for `np.random.choice`);
* calls that can raise return `Except String`.
-/

namespace GraphSage

/-- Numpy semantics of integer remainder: `a % 0` evaluates to `0` (numpy
emits a RuntimeWarning but does not raise), otherwise the ordinary mod. -/
def npMod (a b : Nat) : Nat := if b = 0 then 0 else a % b

/-- Python slice semantics of `t[:, :n]` applied to one row: a nonnegative
`n` keeps the first `n` entries, a negative `n` keeps all but the last `-n`
entries. -/
def sliceTo (n : Int) (l : List Nat) : List Nat :=
  if 0 ≤ n then l.take n.toNat else l.take (l.length - (-n).toNat)

namespace UniformNeighborSampler

/-- Embeds `UniformNeighborSampler.__call__(ids, n_samples=-1)`: select the
rows of `adj` at `ids`, apply the shared random column permutation `perm`
(the result of `torch.randperm` on the row width, passed in explicitly),
then keep the columns `[:n_samples]`. -/
def call (adj : List (List Nat)) (ids : List Nat) (n_samples : Int)
    (perm : List Nat) : List (List Nat) :=
  (ids.map (fun i => adj.getD i [])).map
    (fun r => sliceTo n_samples (perm.map (fun j => r.getD j 0)))

/-- A call that omits `n_samples` uses the Python default value `-1`. -/
def callDefault (adj : List (List Nat)) (ids : List Nat)
    (perm : List Nat) : List (List Nat) :=
  call adj ids (-1) perm

end UniformNeighborSampler

namespace SparseUniformNeighborSampler

/-- Per-row degree as computed in `__init__` via
`np.unique(adj.nonzero()[0], return_counts=True)`: the number of nonzero
entries stored in the row (and 0 for a row with no stored entry). -/
def degree (row : List Nat) : Nat := (row.filter (fun x => x ≠ 0)).length

/-- Embeds `SparseUniformNeighborSampler.__call__(ids, n_samples=128)`.
`adj` is the dense view of the csr matrix (entry `(i, j)` reads as 0 when
not stored); `rand` is the flattened `(len(ids), n_samples)` table of draws
produced by `np.random.choice(adj.shape[1], ...)`, row-major.  The code
first asserts `n_samples > 0`; the fancy row indexing `adj[ids]` raises an
IndexError for an out-of-range id; entry `p` of the flattened output is
`adj[ids[p / n_samples], rand[p] % degrees[ids[p / n_samples]]]` with numpy
remainder semantics (`npMod`).  The trailing squeeze / LongTensor
conversion does not change the flat sequence of values and is not
modelled. -/
def call (adj : List (List Nat)) (ids : List Nat) (n_samples : Int)
    (rand : List Nat) : Except String (List Nat) :=
  if n_samples ≤ 0 then
    .error "SparseUniformNeighborSampler: n_samples must be set explicitly"
  else if ids.any (fun i => adj.length ≤ i) then
    .error "IndexError: row index out of range"
  else
    let K := n_samples.toNat
    .ok ((List.range (ids.length * K)).map (fun p =>
      let i := ids.getD (p / K) 0
      let row := adj.getD i []
      row.getD (npMod (rand.getD p 0) (degree row)) 0))

/-- A call that omits `n_samples` uses the Python default value `128`. -/
def callDefault (adj : List (List Nat)) (ids : List Nat)
    (rand : List Nat) : Except String (List Nat) :=
  call adj ids 128 rand

end SparseUniformNeighborSampler

/-! Dense tensor arithmetic.  A vector is a `List ℚ`; a matrix (e.g. the
weight of an `nn.Linear`) is a `List (List ℚ)` of its rows. -/

/-- Dot product of two vectors. -/
def dot (u v : List ℚ) : ℚ := (List.zipWith (fun a b => a * b) u v).sum

/-- `nn.Linear` with bias: weight `w` has one row per output coordinate,
`b` is the bias vector. -/
def linear (w : List (List ℚ)) (b : List ℚ) (x : List ℚ) : List ℚ :=
  List.zipWith (fun row bi => dot row x + bi) w b

/-- `nn.Linear` with `bias=False`. -/
def linearNB (w : List (List ℚ)) (x : List ℚ) : List ℚ :=
  w.map (fun row => dot row x)

/-- Componentwise sum of two vectors. -/
def vadd (u v : List ℚ) : List ℚ := List.zipWith (fun a b => a + b) u v

/-- Componentwise max of two vectors. -/
def vmax2 (u v : List ℚ) : List ℚ := List.zipWith max u v

/-- Sum of a list of vectors of width `d` (`tensor.sum(dim=1)` over the
middle axis of a `(batch, K, d)` view, per batch row). -/
def vsum (d : Nat) (l : List (List ℚ)) : List ℚ :=
  l.foldl vadd (List.replicate d 0)

/-- `tensor.mean(dim=1)` for one batch row: sum of the `K` vectors divided
by `K`. -/
def vmean (d : Nat) (l : List (List ℚ)) : List ℚ :=
  (vsum d l).map (fun x => x / (l.length : ℚ))

/-- One folding step of componentwise max (`none` is the empty
accumulator). -/
def omax (acc : Option (List ℚ)) (v : List ℚ) : Option (List ℚ) :=
  match acc with
  | none => some v
  | some u => some (vmax2 u v)

/-- `tensor.max(dim=1)[0]` for one batch row: componentwise max of the `K`
vectors (torch requires `K ≥ 1`; the empty case is irrelevant here). -/
def vmaxList (l : List (List ℚ)) : List ℚ := (l.foldl omax none).getD []

/-- `.mean(dim=1)` on one block of the `(batch, K, width)` view: the width
comes from the block itself. -/
def tensorMean (blk : List (List ℚ)) : List ℚ :=
  vmean ((blk.headD []).length) blk

/-- `.max(dim=1)[0]` on one block of the `(batch, K, width)` view. -/
def tensorMax (blk : List (List ℚ)) : List ℚ := vmaxList blk

/-- `relu` applied to one scalar. -/
def relu (x : ℚ) : ℚ := max x 0

/-- `tensor.view(batch, -1, width)`: split a flat list of rows into
`l.length / K` consecutive blocks of `K` rows. -/
def chunkList (K : Nat) (l : List (List ℚ)) : List (List (List ℚ)) :=
  (List.range (l.length / K)).map (fun i => (l.drop (i * K)).take K)

/-- `feats.long()` applied to one rational entry: truncation to an
integer token id (tokens are nonnegative in every valid call). -/
def toTok (q : ℚ) : Nat := q.num.toNat / q.den

/-! Preprocessors.  Each `forward` is a function of the module parameters
(embedding tables as row lists, `nn.Linear` weights and biases, the scalar
nonlinearity for `nn.Tanh`) followed by the call arguments
`(ids, feats, layer_idx)`. -/

namespace IdentityPrep

/-- `IdentityPrep.output_dim` is the configured `input_dim`. -/
def output_dim (input_dim : Nat) : Nat := input_dim

/-- `IdentityPrep.forward` returns `feats` unchanged. -/
def forward (ids : List Nat) (feats : List (List ℚ)) (layer_idx : Nat) :
    List (List ℚ) :=
  feats

end IdentityPrep

namespace NodeEmbeddingPrep

/-- `NodeEmbeddingPrep.output_dim`: `input_dim + embedding_dim` when
`input_dim` is truthy, else `embedding_dim`. -/
def output_dim (input_dim embedding_dim : Nat) : Nat :=
  if input_dim ≠ 0 then input_dim + embedding_dim else embedding_dim

/-- `NodeEmbeddingPrep.forward`: at `layer_idx > 0` look up each id's own
embedding, otherwise look up the sentinel id `n_nodes` for every position
(`ids.clone().data.zero_() + self.n_nodes`); pass the lookups through the
affine `fc`; concatenate with `feats` when `input_dim` is truthy. -/
def forward (n_nodes input_dim : Nat) (emb : List (List ℚ))
    (fcW : List (List ℚ)) (fcB : List ℚ) (ids : List Nat)
    (feats : List (List ℚ)) (layer_idx : Nat) : List (List ℚ) :=
  let lookup_ids := if layer_idx > 0 then ids else ids.map (fun _ => n_nodes)
  let embs := lookup_ids.map (fun i => linear fcW fcB (emb.getD i []))
  if input_dim ≠ 0 then List.zipWith (fun f e => f ++ e) feats embs else embs

end NodeEmbeddingPrep

namespace LinearPrep

/-- `LinearPrep.forward`: a single affine transform of `feats`; `ids` and
`layer_idx` are ignored. -/
def forward (fcW : List (List ℚ)) (fcB : List ℚ) (ids : List Nat)
    (feats : List (List ℚ)) (layer_idx : Nat) : List (List ℚ) :=
  feats.map (fun f => linear fcW fcB f)

end LinearPrep

namespace NonLinearPrep

/-- `NonLinearPrep.forward`: `Linear → Tanh → Linear` applied to `feats`;
`tanh` is the scalar nonlinearity, passed as a function. -/
def forward (w1 : List (List ℚ)) (b1 : List ℚ) (tanh : ℚ → ℚ)
    (w2 : List (List ℚ)) (b2 : List ℚ) (ids : List Nat)
    (feats : List (List ℚ)) (layer_idx : Nat) : List (List ℚ) :=
  feats.map (fun f => linear w2 b2 ((linear w1 b1 f).map tanh))

end NonLinearPrep

namespace BagOfWordsPrep

/-- `BagOfWordsPrep.output_dim` is twice the configured per-branch
`output_dim`. -/
def output_dim (od : Nat) : Nat := od * 2

/-- `BagOfWordsPrep.forward`: the node branch repeats the
`NodeEmbeddingPrep` sentinel rule and applies `node_fc`; the feature branch
treats each row of `feats` as a bag of token ids, mean-pools their
`feat_embedding` lookups and applies `feat_fc`; the output is
`cat([feat_embs, node_embs], dim=1)`. -/
def forward (n_nodes embedding_dim : Nat) (nodeEmb : List (List ℚ))
    (nodeFcW : List (List ℚ)) (nodeFcB : List ℚ) (featEmb : List (List ℚ))
    (featFcW : List (List ℚ)) (featFcB : List ℚ) (ids : List Nat)
    (feats : List (List ℚ)) (layer_idx : Nat) : List (List ℚ) :=
  let lookup_ids := if layer_idx > 0 then ids else ids.map (fun _ => n_nodes)
  let node_embs :=
    lookup_ids.map (fun i => linear nodeFcW nodeFcB (nodeEmb.getD i []))
  let feat_embs := feats.map (fun frow =>
    linear featFcW featFcB
      (vmean embedding_dim (frow.map (fun q => featEmb.getD (toTok q) []))))
  List.zipWith (fun f n => f ++ n) feat_embs node_embs

end BagOfWordsPrep

namespace GeoBagOfWordsPrep

/-- The hard-coded number of trailing categorical columns. -/
def n_cat : Nat := 28

/-- `GeoBagOfWordsPrep.forward`: the leading `input_dim - n_cat` columns go
through the `Linear → Tanh → Linear` mlp, the trailing `n_cat` columns are
treated as token ids whose embedding lookups are mean-pooled and affine
transformed; the two branches are concatenated and projected by `fc`. -/
def forward (embedding_dim : Nat) (catEmb : List (List ℚ))
    (catFcW : List (List ℚ)) (catFcB : List ℚ) (w1 : List (List ℚ))
    (b1 : List ℚ) (tanh : ℚ → ℚ) (w2 : List (List ℚ)) (b2 : List ℚ)
    (fcW : List (List ℚ)) (fcB : List ℚ) (ids : List Nat)
    (feats : List (List ℚ)) (layer_idx : Nat) : List (List ℚ) :=
  let con_feat_embs := feats.map (fun r =>
    linear w2 b2 ((linear w1 b1 (r.take (r.length - n_cat))).map tanh))
  let cat_feat_embs := feats.map (fun r =>
    linear catFcW catFcB
      (vmean embedding_dim
        ((r.drop (r.length - n_cat)).map (fun q => catEmb.getD (toTok q) []))))
  (List.zipWith (fun c n => c ++ n) cat_feat_embs con_feat_embs).map
    (fun row => linear fcW fcB row)

end GeoBagOfWordsPrep

/-! Aggregators.  `combine_fn` (default `torch.cat(x, dim=1)`) and the
optional activation act rowwise and are passed as functions.  Every forward
reshapes the flat `neib_feats` by `view(node_feats.size(0), -1, width)`,
i.e. `chunkList` with `K = neib_feats.length / node_feats.length`. -/

namespace MeanAggregator

/-- `MeanAggregator.forward`: mean the `K` neighbor rows of each node,
apply the bias-free `fc_node` / `fc_neib` transforms, combine, and apply
the activation. -/
def forward (fc_node fc_neib : List (List ℚ))
    (combine : List ℚ → List ℚ → List ℚ) (act : List ℚ → List ℚ)
    (node_feats neib_feats : List (List ℚ)) : List (List ℚ) :=
  let d := (neib_feats.headD []).length
  let K := neib_feats.length / node_feats.length
  List.zipWith
    (fun nf blk => act (combine (linearNB fc_node nf)
      (linearNB fc_neib (vmean d blk))))
    node_feats (chunkList K neib_feats)

end MeanAggregator

namespace PoolAggregator

/-- `PoolAggregator.forward`: push every neighbor row through the shared
`Linear → ReLU` mlp, reshape, pool each node's block with `pool_fn`,
then transform, combine and activate. -/
def forward (mlpW : List (List ℚ)) (mlpB : List ℚ)
    (fc_node fc_neib : List (List ℚ))
    (pool_fn : List (List ℚ) → List ℚ)
    (combine : List ℚ → List ℚ → List ℚ) (act : List ℚ → List ℚ)
    (node_feats neib_feats : List (List ℚ)) : List (List ℚ) :=
  let h := neib_feats.map (fun r => (linear mlpW mlpB r).map relu)
  let K := h.length / node_feats.length
  List.zipWith
    (fun nf blk => act (combine (linearNB fc_node nf)
      (linearNB fc_neib (pool_fn blk))))
    node_feats (chunkList K h)

end PoolAggregator

namespace MaxPoolAggregator

/-- `MaxPoolAggregator` instantiates `PoolAggregator` with
`pool_fn = lambda x: x.max(dim=1)[0]`. -/
def forward (mlpW : List (List ℚ)) (mlpB : List ℚ)
    (fc_node fc_neib : List (List ℚ))
    (combine : List ℚ → List ℚ → List ℚ) (act : List ℚ → List ℚ)
    (node_feats neib_feats : List (List ℚ)) : List (List ℚ) :=
  PoolAggregator.forward mlpW mlpB fc_node fc_neib tensorMax combine act
    node_feats neib_feats

end MaxPoolAggregator

namespace MeanPoolAggregator

/-- `MeanPoolAggregator` instantiates `PoolAggregator` with
`pool_fn = lambda x: x.mean(dim=1)`. -/
def forward (mlpW : List (List ℚ)) (mlpB : List ℚ)
    (fc_node fc_neib : List (List ℚ))
    (combine : List ℚ → List ℚ → List ℚ) (act : List ℚ → List ℚ)
    (node_feats neib_feats : List (List ℚ)) : List (List ℚ) :=
  PoolAggregator.forward mlpW mlpB fc_node fc_neib tensorMean combine act
    node_feats neib_feats

end MeanPoolAggregator

/-- Python resolution of a bare identifier against a scope: a miss raises
`NameError`. -/
def evalName (scope : List (String × Nat)) (x : String) : Except String Nat :=
  match scope.lookup x with
  | some v => .ok v
  | none => .error ("NameError: name " ++ x ++ " is not defined")

namespace PSimpleMeanAggregator

/-- The local names bound inside `PSimpleMeanAggregator.__init__` (besides
`self`, `activation` and `combine_fn`, whose values are not integers and
are never read by the failing expression). -/
def initScope (input_dim output_dim n_nodes : Nat) : List (String × Nat) :=
  [("input_dim", input_dim), ("output_dim", output_dim), ("n_nodes", n_nodes)]

/-- The constructed module: `self.output_dim`, the `(n_nodes + 1, 1)`
embedding table size, and the `in/out` sizes of `self.fc_neib`. -/
structure Module where
  output_dim : Nat
  emb_rows : Nat
  fc_in : Nat
  fc_out : Nat

/-- Embeds `PSimpleMeanAggregator.__init__(input_dim, output_dim, ...,
n_nodes)` statement by statement: `self.output_dim = output_dim` reads
`output_dim`; `self.embedding = nn.Embedding(n_nodes + 1, 1)` reads
`n_nodes`; `self.fc_neib = nn.Linear(input_dim, output_dim_, bias=True)`
reads `input_dim` and then the bare name `output_dim_`, which is bound
nowhere (line 343 of the source writes `output_dim_` where every other
aggregator writes `output_dim`). -/
def init (input_dim output_dim n_nodes : Nat) : Except String Module := do
  let scope := initScope input_dim output_dim n_nodes
  let od ← evalName scope "output_dim"
  let nn ← evalName scope "n_nodes"
  let fcIn ← evalName scope "input_dim"
  let fcOut ← evalName scope "output_dim_"
  .ok ⟨od, nn + 1, fcIn, fcOut⟩

end PSimpleMeanAggregator

namespace LSTMAggregator

/-- Embeds `LSTMAggregator.__init__`: the unconditional
`assert not hidden_dim % 2` followed by
`nn.LSTM(input_dim, hidden_dim // (1 + bidirectional), ...)`; the result
is the per-direction hidden size of the created LSTM. -/
def init (hidden_dim : Nat) (bidirectional : Bool) : Except String Nat :=
  if hidden_dim % 2 ≠ 0 then
    .error "LSTMAggregator: hiddem_dim % 2 != 0"
  else
    .ok (hidden_dim / (1 + (if bidirectional then 1 else 0)))

end LSTMAggregator

/-! Helper lemmas. -/

theorem sliceTo_nonneg (K : Nat) (l : List Nat) :
    sliceTo (K : Int) l = l.take K := by
  simp [sliceTo]

theorem sliceTo_neg_one (l : List Nat) : sliceTo (-1) l = l.dropLast := by
  rw [List.dropLast_eq_take]
  simp [sliceTo]

/-- Successful execution of the sparse sampler body: with a positive
`n_samples` and in-range ids both guards pass and the flattened sample
table is returned. -/
theorem sparse_call_ok (adj : List (List Nat)) (ids : List Nat) (n : Int)
    (rand : List Nat) (hn : 0 < n) (hin : ∀ i ∈ ids, i < adj.length) :
    SparseUniformNeighborSampler.call adj ids n rand =
      .ok ((List.range (ids.length * n.toNat)).map (fun p =>
        let i := ids.getD (p / n.toNat) 0
        let row := adj.getD i []
        row.getD (npMod (rand.getD p 0)
          (SparseUniformNeighborSampler.degree row)) 0)) := by
  unfold SparseUniformNeighborSampler.call
  rw [if_neg (by omega), if_neg]
  simp only [List.any_eq_true, decide_eq_true_eq, not_exists, not_and, not_le]
  exact hin

/-- A row with degree 0 stores only zeros, so its leading entry reads 0. -/
theorem degree_zero_head (row : List Nat)
    (h : SparseUniformNeighborSampler.degree row = 0) : row.getD 0 0 = 0 := by
  unfold SparseUniformNeighborSampler.degree at h
  rw [List.length_eq_zero] at h
  cases row with
  | nil => rfl
  | cons a t =>
    by_contra ha
    have : a ∈ List.filter (fun x => decide ¬x = 0) (a :: t) := by
      rw [List.mem_filter]
      exact ⟨List.mem_cons_self a t, by simpa using ha⟩
    rw [h] at this
    exact (List.not_mem_nil a) this

/-! Claims. -/

/-- C1 (counterexample): node 1 of this sparse adjacency has degree 0, yet
`sample([1], 2)` raises nothing: it silently returns the result `[0, 0]`
instead of an InvalidArgument error. -/
theorem claim_C1_counterexample :
    SparseUniformNeighborSampler.call [[5, 7, 9, 0], [0, 0, 0, 0]] [1] 2 [3, 1] =
      .ok [0, 0] := by
  rfl

/-- C1 (amended): the sparse sampler performs no degree check.  For any
call with positive `n_samples` and in-range ids — including calls in which
some id has degree 0 — no error is raised; numpy's remainder by zero
evaluates to 0, so every position belonging to a degree-0 id silently
receives the padding value 0 instead of an InvalidArgument being raised. -/
theorem claim_C1_degree_zero_silent (adj : List (List Nat)) (ids : List Nat)
    (n : Int) (rand : List Nat) (hn : 0 < n)
    (hin : ∀ i ∈ ids, i < adj.length) :
    ∃ out, SparseUniformNeighborSampler.call adj ids n rand = .ok out ∧
      out.length = ids.length * n.toNat ∧
      ∀ p, (hp : p < out.length) →
        SparseUniformNeighborSampler.degree
          (adj.getD (ids.getD (p / n.toNat) 0) []) = 0 →
        out.get ⟨p, hp⟩ = 0 := by
  refine ⟨_, sparse_call_ok adj ids n rand hn hin, by simp, ?_⟩
  intro p hp hdeg
  simp only [List.length_map, List.length_range] at hp
  simp only [List.get_eq_getElem, List.getElem_map, List.getElem_range]
  rw [hdeg]
  exact degree_zero_head _ hdeg

/-- C1 (witness for the amended claim). -/
theorem claim_C1_degree_zero_silent_witness :
    ∃ out,
      SparseUniformNeighborSampler.call [[5, 7, 9, 0], [0, 0, 0, 0]] [0, 1] 2
        [3, 1, 6, 2] = .ok out ∧
      out.length = 2 * 2 ∧
      ∀ p, (hp : p < out.length) →
        SparseUniformNeighborSampler.degree
          ([[5, 7, 9, 0], [0, 0, 0, 0]].getD ([0, 1].getD (p / 2) 0) []) = 0 →
        out.get ⟨p, hp⟩ = 0 :=
  claim_C1_degree_zero_silent [[5, 7, 9, 0], [0, 0, 0, 0]] [0, 1] 2
    [3, 1, 6, 2] (by decide) (by decide)

/-- C2 (code evaluation at the failing input): `PSimpleMeanAggregator`
construction never succeeds — line 343 reads the unbound name
`output_dim_`, so `__init__` raises NameError for every `input_dim`,
`output_dim` and `n_nodes`; the forward described by the claim is
unreachable. -/
theorem claim_C2_psimplemean_init_raises (input_dim output_dim n_nodes : Nat) :
    PSimpleMeanAggregator.init input_dim output_dim n_nodes =
      .error "NameError: name output_dim_ is not defined" := by
  rfl

/-- C3 (counterexample): a call that omits `n_samples` does return a
sample: the Python default `128` passes the `n_samples > 0` assertion, and
the sampler answers with 128 neighbor ids. -/
theorem claim_C3_counterexample :
    SparseUniformNeighborSampler.callDefault [[1]] [0] [] =
      .ok (List.replicate 128 1) := by
  rfl

/-- C3 (amended): the sparse sampler fails with the InvalidArgument
assertion whenever `n_samples` is non-positive, but an omitted `n_samples`
defaults to 128, passes the check, and the call returns a sample of
`len(ids) * 128` ids. -/
theorem claim_C3_nsamples_amended :
    (∀ (adj : List (List Nat)) (ids : List Nat) (n : Int) (rand : List Nat),
      n ≤ 0 → SparseUniformNeighborSampler.call adj ids n rand =
        .error "SparseUniformNeighborSampler: n_samples must be set explicitly") ∧
    (∀ (adj : List (List Nat)) (ids : List Nat) (rand : List Nat),
      (∀ i ∈ ids, i < adj.length) →
      ∃ out, SparseUniformNeighborSampler.callDefault adj ids rand = .ok out ∧
        out.length = ids.length * 128) := by
  constructor
  · intro adj ids n rand hn
    unfold SparseUniformNeighborSampler.call
    rw [if_pos hn]
  · intro adj ids rand hin
    exact ⟨_, sparse_call_ok adj ids 128 rand (by omega) hin, by simp⟩

/-- C3 (witness for the amended claim). -/
theorem claim_C3_nsamples_amended_witness :
    SparseUniformNeighborSampler.call [[1]] [0] 0 [] =
      .error "SparseUniformNeighborSampler: n_samples must be set explicitly" ∧
    ∃ out, SparseUniformNeighborSampler.callDefault [[1]] [0] [] = .ok out ∧
      out.length = 1 * 128 :=
  ⟨claim_C3_nsamples_amended.1 [[1]] [0] 0 [] (by decide),
   claim_C3_nsamples_amended.2 [[1]] [0] [] (by decide)⟩

/-- C4: with all queried degrees at least 1, in-range ids and positive `K`,
the sparse sampler succeeds and returns exactly `len(ids) * K` ids, each a
true (nonzero, hence non-padding) stored neighbor of the node it was
sampled for.  `hpacked` is the csr layout invariant: a row stores its
`degree` true neighbors in its leading columns. -/
theorem claim_C4_sparse_membership (adj : List (List Nat)) (ids : List Nat)
    (K : Nat) (rand : List Nat) (hK : 1 ≤ K)
    (hin : ∀ i ∈ ids, i < adj.length)
    (hdeg : ∀ i ∈ ids,
      1 ≤ SparseUniformNeighborSampler.degree (adj.getD i []))
    (hpacked : ∀ i ∈ ids,
      ∀ j < SparseUniformNeighborSampler.degree (adj.getD i []),
      (adj.getD i []).getD j 0 ≠ 0) :
    ∃ out, SparseUniformNeighborSampler.call adj ids (K : Int) rand = .ok out ∧
      out.length = ids.length * K ∧
      ∀ p, (hp : p < out.length) →
        out.get ⟨p, hp⟩ ∈
          (adj.getD (ids.getD (p / K) 0) []).filter (fun x => x ≠ 0) := by
  refine ⟨_, sparse_call_ok adj ids (K : Int) rand (by omega) hin, by simp, ?_⟩
  intro p hp
  simp only [List.length_map, List.length_range, Int.toNat_ofNat] at hp
  simp only [List.get_eq_getElem, List.getElem_map, List.getElem_range,
    Int.toNat_ofNat]
  have hpi : p / K < ids.length := (Nat.div_lt_iff_lt_mul (by omega)).2 hp
  have hmem_i : ids.getD (p / K) 0 ∈ ids := by
    rw [List.getD_eq_getElem _ _ hpi]
    exact List.getElem_mem hpi
  have hd : 1 ≤ SparseUniformNeighborSampler.degree
      (adj.getD (ids.getD (p / K) 0) []) := hdeg _ hmem_i
  have hnp : npMod (rand.getD p 0)
      (SparseUniformNeighborSampler.degree (adj.getD (ids.getD (p / K) 0) []))
      < SparseUniformNeighborSampler.degree (adj.getD (ids.getD (p / K) 0) []) := by
    unfold npMod
    rw [if_neg (by omega)]
    exact Nat.mod_lt _ (by omega)
  have hjrow : npMod (rand.getD p 0)
      (SparseUniformNeighborSampler.degree (adj.getD (ids.getD (p / K) 0) []))
      < (adj.getD (ids.getD (p / K) 0) []).length := by
    refine lt_of_lt_of_le hnp ?_
    unfold SparseUniformNeighborSampler.degree
    exact List.length_filter_le _ _
  rw [List.getD_eq_getElem _ _ hjrow]
  refine List.mem_filter.2 ⟨List.getElem_mem hjrow, decide_eq_true ?_⟩
  have := hpacked _ hmem_i _ hnp
  rw [List.getD_eq_getElem _ _ hjrow] at this
  exact this

/-- C4 (witness). -/
theorem claim_C4_sparse_membership_witness :
    ∃ out, SparseUniformNeighborSampler.call [[5, 7, 9, 0]] [0] (3 : Int)
        [4, 5, 6] = .ok out ∧
      out.length = 1 * 3 ∧
      ∀ p, (hp : p < out.length) →
        out.get ⟨p, hp⟩ ∈
          ([[5, 7, 9, 0]].getD ([0].getD (p / 3) 0) []).filter
            (fun x => x ≠ 0) :=
  claim_C4_sparse_membership [[5, 7, 9, 0]] [0] 3 [4, 5, 6] (by decide)
    (by decide) (by decide) (by decide)

/-- C5: for `1 ≤ K`, the dense sampler applies one shared column
permutation to the selected rows and keeps the first `K` columns, so every
node receives `min K W` ids (that is, `K` of them when `K ≤ W`, and only
the `W` columns of the row when `K` exceeds `W`), each drawn from that
node's stored neighbor row. -/
theorem claim_C5_dense_membership (adj : List (List Nat)) (ids : List Nat)
    (perm : List Nat) (W K : Nat) (hperm : perm.Perm (List.range W))
    (hrow : ∀ i ∈ ids, (adj.getD i []).length = W) (hK : 1 ≤ K) :
    (UniformNeighborSampler.call adj ids (K : Int) perm).length = ids.length ∧
    ∀ p, p < ids.length →
      ((UniformNeighborSampler.call adj ids (K : Int) perm).getD p []).length
          = min K W ∧
      ∀ x ∈ (UniformNeighborSampler.call adj ids (K : Int) perm).getD p [],
        x ∈ adj.getD (ids.getD p 0) [] := by
  have hW : perm.length = W := by
    rw [hperm.length_eq, List.length_range]
  have hcall : UniformNeighborSampler.call adj ids (K : Int) perm =
      ids.map (fun i =>
        ((perm.map (fun j => (adj.getD i []).getD j 0)).take K)) := by
    unfold UniformNeighborSampler.call
    rw [List.map_map]
    simp only [Function.comp, sliceTo_nonneg]
    rfl
  refine ⟨by simp [hcall], ?_⟩
  intro p hp
  have hplen : p < (UniformNeighborSampler.call adj ids (K : Int) perm).length := by
    simpa [hcall] using hp
  have hget : (UniformNeighborSampler.call adj ids (K : Int) perm).getD p [] =
      (perm.map (fun j => (adj.getD (ids.getD p 0) []).getD j 0)).take K := by
    rw [List.getD_eq_getElem _ _ hplen]
    simp only [hcall, List.getElem_map]
    rw [List.getD_eq_getElem _ _ hp]
  constructor
  · rw [hget]
    simp [hW]
  · intro x hx
    rw [hget] at hx
    have hx2 := List.mem_of_mem_take hx
    obtain ⟨j, hj, hxj⟩ := List.mem_map.1 hx2
    have hjW : j < W := by
      have := hperm.mem_iff.1 hj
      simpa using this
    have hmem_p : ids.getD p 0 ∈ ids := by
      rw [List.getD_eq_getElem _ _ hp]
      exact List.getElem_mem hp
    have hjr : j < (adj.getD (ids.getD p 0) []).length := by
      rw [hrow _ hmem_p]
      exact hjW
    rw [← hxj, List.getD_eq_getElem _ _ hjr]
    exact List.getElem_mem hjr

/-- C5 (witness). -/
theorem claim_C5_dense_membership_witness :
    (UniformNeighborSampler.call [[1, 2, 3], [4, 5, 6]] [0, 1] (2 : Int)
        [2, 0, 1]).length = [0, 1].length ∧
    ∀ p, p < [0, 1].length →
      ((UniformNeighborSampler.call [[1, 2, 3], [4, 5, 6]] [0, 1] (2 : Int)
          [2, 0, 1]).getD p []).length = min 2 3 ∧
      ∀ x ∈ (UniformNeighborSampler.call [[1, 2, 3], [4, 5, 6]] [0, 1]
          (2 : Int) [2, 0, 1]).getD p [],
        x ∈ [[1, 2, 3], [4, 5, 6]].getD ([0, 1].getD p 0) [] :=
  claim_C5_dense_membership [[1, 2, 3], [4, 5, 6]] [0, 1] [2, 0, 1] 3 2
    (by decide) (by decide) (by decide)

/-- C9: the dense sampler invoked without `n_samples` uses the Python
default `-1`, so the `[:, :-1]` truncation keeps all but the last column of
each permuted row: every node receives `W - 1` neighbor ids instead of the
full row of `W`. -/
theorem claim_C9_dense_default_drops_last (adj : List (List Nat))
    (ids : List Nat) (perm : List Nat) (W : Nat)
    (hperm : perm.Perm (List.range W))
    (hrow : ∀ i ∈ ids, (adj.getD i []).length = W) :
    UniformNeighborSampler.callDefault adj ids perm =
      (ids.map (fun i => adj.getD i [])).map
        (fun r => (perm.map (fun j => r.getD j 0)).dropLast) ∧
    ∀ row ∈ UniformNeighborSampler.callDefault adj ids perm,
      row.length = W - 1 := by
  have h1 : UniformNeighborSampler.callDefault adj ids perm =
      (ids.map (fun i => adj.getD i [])).map
        (fun r => (perm.map (fun j => r.getD j 0)).dropLast) := by
    unfold UniformNeighborSampler.callDefault UniformNeighborSampler.call
    simp only [sliceTo_neg_one]
  refine ⟨h1, ?_⟩
  intro row hr
  rw [h1] at hr
  obtain ⟨r, _, hrl⟩ := List.mem_map.1 hr
  rw [← hrl, List.length_dropLast, List.length_map, hperm.length_eq,
    List.length_range]

/-- C9 (witness). -/
theorem claim_C9_dense_default_drops_last_witness :
    UniformNeighborSampler.callDefault [[1, 2, 3], [4, 5, 6]] [0, 1]
        [2, 0, 1] =
      ([0, 1].map (fun i => [[1, 2, 3], [4, 5, 6]].getD i [])).map
        (fun r => (([2, 0, 1] : List Nat).map (fun j => r.getD j 0)).dropLast) ∧
    ∀ row ∈ UniformNeighborSampler.callDefault [[1, 2, 3], [4, 5, 6]] [0, 1]
        [2, 0, 1],
      row.length = 3 - 1 :=
  claim_C9_dense_default_drops_last [[1, 2, 3], [4, 5, 6]] [0, 1] [2, 0, 1] 3
    (by decide) (by decide)

/-- The affine transform whose weight and bias are the single zero row
collapses every input vector to `[0]`. -/
theorem linear_zero_single (v : List ℚ) : linear [[0]] [0] v = [0] := by
  cases v <;> simp [linear, dot]

/-- C6 (counterexample): the claim quantifies over all parameter settings,
but with the all-zero parameters the layer-1 forward is also invariant to
`ids` — no two equal-size id batches produce different outputs. -/
theorem claim_C6_counterexample :
    ¬ ∃ ids1 ids2 : List Nat, ids1.length = ids2.length ∧
      NodeEmbeddingPrep.forward 2 0 [[0], [0], [0]] [[0]] [0] ids1 [] 1 ≠
      NodeEmbeddingPrep.forward 2 0 [[0], [0], [0]] [[0]] [0] ids2 [] 1 := by
  rintro ⟨ids1, ids2, hlen, hne⟩
  apply hne
  have h : ∀ ids : List Nat,
      NodeEmbeddingPrep.forward 2 0 [[0], [0], [0]] [[0]] [0] ids [] 1 =
        List.replicate ids.length [0] := by
    intro ids
    unfold NodeEmbeddingPrep.forward
    simp only [show (1 : Nat) > 0 from by decide, if_true, ne_eq,
      not_true_eq_false, if_false]
    rw [List.map_congr_left (fun i _ => linear_zero_single
      ([[0], [0], [0]].getD i ([] : List ℚ))), List.map_const']
  rw [h ids1, h ids2, hlen]

/-- C6 (amended): for every parameter setting the layer-0 forward is
invariant across equal-size id batches (the sentinel `n_nodes` is looked
up at every position); and for every `layer_idx ≥ 1` the forward reads the
nodes' own embeddings, so there exist a parameter setting and two
equal-size id batches whose outputs differ. -/
theorem claim_C6_layer0_invariance :
    (∀ (n_nodes input_dim : Nat) (emb fcW : List (List ℚ)) (fcB : List ℚ)
      (feats : List (List ℚ)) (ids1 ids2 : List Nat),
      ids1.length = ids2.length →
      NodeEmbeddingPrep.forward n_nodes input_dim emb fcW fcB ids1 feats 0 =
        NodeEmbeddingPrep.forward n_nodes input_dim emb fcW fcB ids2 feats 0) ∧
    (∀ layer_idx : Nat, 1 ≤ layer_idx →
      ∃ (n_nodes : Nat) (emb fcW : List (List ℚ)) (fcB : List ℚ)
        (feats : List (List ℚ)) (ids1 ids2 : List Nat),
        ids1.length = ids2.length ∧
        NodeEmbeddingPrep.forward n_nodes 0 emb fcW fcB ids1 feats
            layer_idx ≠
          NodeEmbeddingPrep.forward n_nodes 0 emb fcW fcB ids2 feats
            layer_idx) := by
  constructor
  · intro n_nodes input_dim emb fcW fcB feats ids1 ids2 hlen
    unfold NodeEmbeddingPrep.forward
    simp only [show ¬ (0 : Nat) > 0 from by decide, if_false]
    rw [List.map_map, List.map_map]
    have hmap : ∀ ids : List Nat,
        ids.map ((fun i => linear fcW fcB (emb.getD i [])) ∘ fun _ => n_nodes) =
          List.replicate ids.length (linear fcW fcB (emb.getD n_nodes [])) :=
      fun ids => List.map_const' ids _
    rw [hmap ids1, hmap ids2, hlen]
  · intro layer_idx hL
    refine ⟨2, [[0], [10], [20]], [[1]], [0], [], [1], [2], rfl, ?_⟩
    unfold NodeEmbeddingPrep.forward
    simp only [show layer_idx > 0 from hL, if_true, ne_eq,
      not_true_eq_false, if_false]
    norm_num [linear, dot]

/-- C6 (witness for the amended claim). -/
theorem claim_C6_layer0_invariance_witness :
    NodeEmbeddingPrep.forward 2 1 [[0], [10], [20]] [[1]] [0] [0] [[5]] 0 =
      NodeEmbeddingPrep.forward 2 1 [[0], [10], [20]] [[1]] [0] [1] [[5]] 0 ∧
    ∃ (n_nodes : Nat) (emb fcW : List (List ℚ)) (fcB : List ℚ)
      (feats : List (List ℚ)) (ids1 ids2 : List Nat),
      ids1.length = ids2.length ∧
      NodeEmbeddingPrep.forward n_nodes 0 emb fcW fcB ids1 feats 1 ≠
        NodeEmbeddingPrep.forward n_nodes 0 emb fcW fcB ids2 feats 1 :=
  ⟨claim_C6_layer0_invariance.1 2 1 [[0], [10], [20]] [[1]] [0] [[5]] [0] [1]
      rfl,
   claim_C6_layer0_invariance.2 1 (by decide)⟩

/-- An affine transform always emits `min |w| |b|` coordinates, whatever
the input. -/
theorem linear_length (w : List (List ℚ)) (b : List ℚ) (x : List ℚ) :
    (linear w b x).length = min w.length b.length := by
  simp [linear]

/-- Rowwise concatenation of two batches whose rows have widths `d1` and
`d2` yields rows of width `d1 + d2`. -/
theorem mem_zipWith_append {l1 l2 : List (List ℚ)} {d1 d2 : Nat}
    (h1 : ∀ r ∈ l1, r.length = d1) (h2 : ∀ r ∈ l2, r.length = d2) :
    ∀ r ∈ List.zipWith (fun a b => a ++ b) l1 l2, r.length = d1 + d2 := by
  induction l1 generalizing l2 with
  | nil => intro r hr; simp at hr
  | cons a t ih =>
    intro r hr
    cases l2 with
    | nil => simp at hr
    | cons b s =>
      simp only [List.zipWith_cons_cons, List.mem_cons] at hr
      rcases hr with rfl | hr
      · rw [List.length_append, h1 a (by simp), h2 b (by simp)]
      · exact ih (fun x hx => h1 x (List.mem_cons_of_mem _ hx))
          (fun x hx => h2 x (List.mem_cons_of_mem _ hx)) r hr

/-- The id-indexed embedding-plus-affine lookup column produces rows of
width `min |fcW| |fcB|` for any list of lookup ids. -/
theorem mem_map_linear_length (fcW : List (List ℚ)) (fcB : List ℚ)
    (g : Nat → List ℚ) (l : List Nat) :
    ∀ e ∈ l.map (fun i => linear fcW fcB (g i)),
      e.length = min fcW.length fcB.length := by
  intro e he
  obtain ⟨i, _, rfl⟩ := List.mem_map.1 he
  exact linear_length fcW fcB (g i)

/-- C7: every preprocessor's forward returns one row per id, of width equal
to the instance's declared `output_dim`: `input_dim` for Identity,
`input_dim + embedding_dim` (or `embedding_dim` alone) for NodeEmbedding,
the configured `output_dim` for Linear and NonLinear, `2 * output_dim` for
BagOfWords, and `output_dim` for GeoBagOfWords.  The shape hypotheses say
the batch is valid (`|feats| = |ids|`, rows of width `input_dim`) and that
each `nn.Linear(i, o)` owns an `o × i` weight and an `o` bias. -/
theorem claim_C7_prep_output_widths :
    (∀ (input_dim : Nat) (ids : List Nat) (feats : List (List ℚ)),
      feats.length = ids.length → (∀ r ∈ feats, r.length = input_dim) →
      (IdentityPrep.forward ids feats 0).length = ids.length ∧
      ∀ r ∈ IdentityPrep.forward ids feats 0,
        r.length = IdentityPrep.output_dim input_dim) ∧
    (∀ (n_nodes input_dim embedding_dim : Nat) (emb fcW : List (List ℚ))
      (fcB : List ℚ) (ids : List Nat) (feats : List (List ℚ))
      (layer_idx : Nat),
      feats.length = ids.length → (∀ r ∈ feats, r.length = input_dim) →
      fcW.length = embedding_dim → fcB.length = embedding_dim →
      (NodeEmbeddingPrep.forward n_nodes input_dim emb fcW fcB ids feats
        layer_idx).length = ids.length ∧
      ∀ r ∈ NodeEmbeddingPrep.forward n_nodes input_dim emb fcW fcB ids feats
          layer_idx,
        r.length = NodeEmbeddingPrep.output_dim input_dim embedding_dim) ∧
    (∀ (output_dim : Nat) (fcW : List (List ℚ)) (fcB : List ℚ)
      (ids : List Nat) (feats : List (List ℚ)) (layer_idx : Nat),
      feats.length = ids.length → fcW.length = output_dim →
      fcB.length = output_dim →
      (LinearPrep.forward fcW fcB ids feats layer_idx).length = ids.length ∧
      ∀ r ∈ LinearPrep.forward fcW fcB ids feats layer_idx,
        r.length = output_dim) ∧
    (∀ (output_dim : Nat) (w1 : List (List ℚ)) (b1 : List ℚ) (tanh : ℚ → ℚ)
      (w2 : List (List ℚ)) (b2 : List ℚ) (ids : List Nat)
      (feats : List (List ℚ)) (layer_idx : Nat),
      feats.length = ids.length → w2.length = output_dim →
      b2.length = output_dim →
      (NonLinearPrep.forward w1 b1 tanh w2 b2 ids feats layer_idx).length
          = ids.length ∧
      ∀ r ∈ NonLinearPrep.forward w1 b1 tanh w2 b2 ids feats layer_idx,
        r.length = output_dim) ∧
    (∀ (n_nodes embedding_dim output_dim : Nat)
      (nodeEmb nodeFcW : List (List ℚ)) (nodeFcB : List ℚ)
      (featEmb featFcW : List (List ℚ)) (featFcB : List ℚ) (ids : List Nat)
      (feats : List (List ℚ)) (layer_idx : Nat),
      feats.length = ids.length → nodeFcW.length = output_dim →
      nodeFcB.length = output_dim → featFcW.length = output_dim →
      featFcB.length = output_dim →
      (BagOfWordsPrep.forward n_nodes embedding_dim nodeEmb nodeFcW nodeFcB
        featEmb featFcW featFcB ids feats layer_idx).length = ids.length ∧
      ∀ r ∈ BagOfWordsPrep.forward n_nodes embedding_dim nodeEmb nodeFcW
          nodeFcB featEmb featFcW featFcB ids feats layer_idx,
        r.length = BagOfWordsPrep.output_dim output_dim) ∧
    (∀ (embedding_dim output_dim : Nat) (catEmb catFcW : List (List ℚ))
      (catFcB : List ℚ) (w1 : List (List ℚ)) (b1 : List ℚ) (tanh : ℚ → ℚ)
      (w2 : List (List ℚ)) (b2 : List ℚ) (fcW : List (List ℚ)) (fcB : List ℚ)
      (ids : List Nat) (feats : List (List ℚ)) (layer_idx : Nat),
      feats.length = ids.length → fcW.length = output_dim →
      fcB.length = output_dim →
      (GeoBagOfWordsPrep.forward embedding_dim catEmb catFcW catFcB w1 b1
        tanh w2 b2 fcW fcB ids feats layer_idx).length = ids.length ∧
      ∀ r ∈ GeoBagOfWordsPrep.forward embedding_dim catEmb catFcW catFcB w1
          b1 tanh w2 b2 fcW fcB ids feats layer_idx,
        r.length = output_dim) := by
  refine ⟨?_, ?_, ?_, ?_, ?_, ?_⟩
  · intro input_dim ids feats hlen hw
    exact ⟨hlen, hw⟩
  · intro n_nodes input_dim embedding_dim emb fcW fcB ids feats layer_idx
      hlen hw hfcW hfcB
    unfold NodeEmbeddingPrep.forward NodeEmbeddingPrep.output_dim
    have hlk : (if layer_idx > 0 then ids
        else ids.map (fun _ => n_nodes)).length = ids.length := by
      by_cases h : layer_idx > 0 <;> simp [h]
    have hemb : ∀ e ∈ (if layer_idx > 0 then ids
          else ids.map (fun _ => n_nodes)).map
          (fun i => linear fcW fcB (emb.getD i [])),
        e.length = embedding_dim := by
      intro e he
      have := mem_map_linear_length fcW fcB (fun i => emb.getD i []) _ e he
      rw [this, hfcW, hfcB, Nat.min_self]
    by_cases h0 : input_dim = 0
    · simp only [h0, ne_eq, not_true_eq_false, if_false]
      refine ⟨?_, hemb⟩
      rw [List.length_map, hlk]
    · simp only [ne_eq, h0, not_false_eq_true, if_true]
      constructor
      · rw [List.length_zipWith, List.length_map, hlk, hlen, Nat.min_self]
      · exact mem_zipWith_append hw hemb
  · intro output_dim fcW fcB ids feats layer_idx hlen hfcW hfcB
    unfold LinearPrep.forward
    refine ⟨by simp [hlen], ?_⟩
    intro r hr
    obtain ⟨f, _, rfl⟩ := List.mem_map.1 hr
    rw [linear_length, hfcW, hfcB, Nat.min_self]
  · intro output_dim w1 b1 tanh w2 b2 ids feats layer_idx hlen hw2 hb2
    unfold NonLinearPrep.forward
    refine ⟨by simp [hlen], ?_⟩
    intro r hr
    obtain ⟨f, _, rfl⟩ := List.mem_map.1 hr
    rw [linear_length, hw2, hb2, Nat.min_self]
  · intro n_nodes embedding_dim output_dim nodeEmb nodeFcW nodeFcB featEmb
      featFcW featFcB ids feats layer_idx hlen hnW hnB hfW hfB
    unfold BagOfWordsPrep.forward BagOfWordsPrep.output_dim
    have hlk : (if layer_idx > 0 then ids
        else ids.map (fun _ => n_nodes)).length = ids.length := by
      by_cases h : layer_idx > 0 <;> simp [h]
    have hnode : ∀ e ∈ (if layer_idx > 0 then ids
          else ids.map (fun _ => n_nodes)).map
          (fun i => linear nodeFcW nodeFcB (nodeEmb.getD i [])),
        e.length = output_dim := by
      intro e he
      have := mem_map_linear_length nodeFcW nodeFcB
        (fun i => nodeEmb.getD i []) _ e he
      rw [this, hnW, hnB, Nat.min_self]
    have hfeat : ∀ e ∈ feats.map (fun frow =>
          linear featFcW featFcB (vmean embedding_dim
            (frow.map (fun q => featEmb.getD (toTok q) [])))),
        e.length = output_dim := by
      intro e he
      obtain ⟨f, _, rfl⟩ := List.mem_map.1 he
      rw [linear_length, hfW, hfB, Nat.min_self]
    constructor
    · rw [List.length_zipWith, List.length_map, List.length_map, hlk, hlen,
        Nat.min_self]
    · intro r hr
      have := mem_zipWith_append hfeat hnode r hr
      rw [this]
      omega
  · intro embedding_dim output_dim catEmb catFcW catFcB w1 b1 tanh w2 b2 fcW
      fcB ids feats layer_idx hlen hfcW hfcB
    unfold GeoBagOfWordsPrep.forward
    constructor
    · simp [hlen]
    · intro r hr
      obtain ⟨row, _, rfl⟩ := List.mem_map.1 hr
      rw [linear_length, hfcW, hfcB, Nat.min_self]

/-- C7 (witness): one concrete valid batch per preprocessor. -/
theorem claim_C7_prep_output_widths_witness :
    ((IdentityPrep.forward [0, 1] [[1], [2]] 0).length = [0, 1].length ∧
      ∀ r ∈ IdentityPrep.forward [0, 1] [[1], [2]] 0,
        r.length = IdentityPrep.output_dim 1) ∧
    ((NodeEmbeddingPrep.forward 2 1 [[3], [4], [5]] [[1]] [0] [0, 1]
        [[1], [2]] 1).length = [0, 1].length ∧
      ∀ r ∈ NodeEmbeddingPrep.forward 2 1 [[3], [4], [5]] [[1]] [0] [0, 1]
          [[1], [2]] 1,
        r.length = NodeEmbeddingPrep.output_dim 1 1) ∧
    ((LinearPrep.forward [[1], [0]] [0, 1] [0] [[2]] 0).length
        = [0].length ∧
      ∀ r ∈ LinearPrep.forward [[1], [0]] [0, 1] [0] [[2]] 0,
        r.length = 2) ∧
    ((NonLinearPrep.forward [[1]] [0] (fun q => q) [[1], [1]] [0, 0] [0]
        [[2]] 0).length = [0].length ∧
      ∀ r ∈ NonLinearPrep.forward [[1]] [0] (fun q => q) [[1], [1]] [0, 0]
          [0] [[2]] 0,
        r.length = 2) ∧
    ((BagOfWordsPrep.forward 2 1 [[3], [4], [5]] [[1]] [0] [[6], [7]] [[1]]
        [0] [0] [[1]] 0).length = [0].length ∧
      ∀ r ∈ BagOfWordsPrep.forward 2 1 [[3], [4], [5]] [[1]] [0] [[6], [7]]
          [[1]] [0] [0] [[1]] 0,
        r.length = BagOfWordsPrep.output_dim 1) ∧
    ((GeoBagOfWordsPrep.forward 1 [[6]] [[1]] [0] [[1]] [0] (fun q => q)
        [[1]] [0] [[1, 0]] [0] [0] [[2]] 0).length = [0].length ∧
      ∀ r ∈ GeoBagOfWordsPrep.forward 1 [[6]] [[1]] [0] [[1]] [0]
          (fun q => q) [[1]] [0] [[1, 0]] [0] [0] [[2]] 0,
        r.length = 1) :=
  ⟨claim_C7_prep_output_widths.1 1 [0, 1] [[1], [2]] (by decide) (by decide),
   claim_C7_prep_output_widths.2.1 2 1 1 [[3], [4], [5]] [[1]] [0] [0, 1]
     [[1], [2]] 1 (by decide) (by decide) (by decide) (by decide),
   claim_C7_prep_output_widths.2.2.1 2 [[1], [0]] [0, 1] [0] [[2]] 0
     (by decide) (by decide) (by decide),
   claim_C7_prep_output_widths.2.2.2.1 2 [[1]] [0] (fun q => q) [[1], [1]]
     [0, 0] [0] [[2]] 0 (by decide) (by decide) (by decide),
   claim_C7_prep_output_widths.2.2.2.2.1 2 1 1 [[3], [4], [5]] [[1]] [0]
     [[6], [7]] [[1]] [0] [0] [[1]] 0 (by decide) (by decide) (by decide)
     (by decide) (by decide),
   claim_C7_prep_output_widths.2.2.2.2.2 1 1 [[6]] [[1]] [0] [[1]] [0]
     (fun q => q) [[1]] [0] [[1, 0]] [0] [0] [[2]] 0 (by decide) (by decide)
     (by decide)⟩

/-! Order-invariance machinery for the Mean / MeanPool / MaxPool
aggregators: componentwise sum and max are fold-invariant under
permutations of the neighbor rows. -/

theorem vadd_cons (a b : ℚ) (t s : List ℚ) :
    vadd (a :: t) (b :: s) = (a + b) :: vadd t s := rfl

theorem vadd_right_comm (z x y : List ℚ) :
    vadd (vadd z x) y = vadd (vadd z y) x := by
  induction z generalizing x y with
  | nil => rfl
  | cons a t ih =>
    cases x with
    | nil => simp [vadd]
    | cons b s =>
      cases y with
      | nil => simp [vadd]
      | cons c r =>
        rw [vadd_cons, vadd_cons, vadd_cons, vadd_cons,
          add_right_comm a b c, ih s r]

theorem vmax2_cons (a b : ℚ) (t s : List ℚ) :
    vmax2 (a :: t) (b :: s) = max a b :: vmax2 t s := rfl

theorem qmax_right_comm (a b c : ℚ) : max (max a b) c = max (max a c) b := by
  rw [max_assoc, max_comm b c, ← max_assoc]

theorem vmax2_right_comm (z x y : List ℚ) :
    vmax2 (vmax2 z x) y = vmax2 (vmax2 z y) x := by
  induction z generalizing x y with
  | nil => rfl
  | cons a t ih =>
    cases x with
    | nil => simp [vmax2]
    | cons b s =>
      cases y with
      | nil => simp [vmax2]
      | cons c r =>
        rw [vmax2_cons, vmax2_cons, vmax2_cons, vmax2_cons,
          qmax_right_comm a b c, ih s r]

theorem vmax2_comm (u v : List ℚ) : vmax2 u v = vmax2 v u :=
  List.zipWith_comm_of_comm max max_comm u v

theorem omax_right_comm (z : Option (List ℚ)) (x y : List ℚ) :
    omax (omax z x) y = omax (omax z y) x := by
  cases z with
  | none => simp [omax, vmax2_comm x y]
  | some u => simp [omax, vmax2_right_comm u x y]

theorem vsum_perm (d : Nat) {l1 l2 : List (List ℚ)} (h : l1.Perm l2) :
    vsum d l1 = vsum d l2 :=
  h.foldl_eq' (fun x _ y _ z => vadd_right_comm z x y) _

theorem vmaxList_perm {l1 l2 : List (List ℚ)} (h : l1.Perm l2) :
    vmaxList l1 = vmaxList l2 := by
  unfold vmaxList
  rw [h.foldl_eq' (fun x _ y _ z => omax_right_comm z x y) none]

theorem vmean_perm (d : Nat) {l1 l2 : List (List ℚ)} (h : l1.Perm l2) :
    vmean d l1 = vmean d l2 := by
  unfold vmean
  rw [vsum_perm d h, h.length_eq]

theorem headD_mem_of_ne_nil {α : Type} (l : List α) (d : α) (h : l ≠ []) :
    l.headD d ∈ l := by
  cases l with
  | nil => exact absurd rfl h
  | cons a t => exact List.mem_cons_self a t

theorem tensorMean_eq_vmean {l : List (List ℚ)} {w : Nat} (hne : l ≠ [])
    (hw : ∀ r ∈ l, r.length = w) : tensorMean l = vmean w l := by
  unfold tensorMean
  rw [hw _ (headD_mem_of_ne_nil l [] hne)]

theorem tensorMean_perm_of_width {l1 l2 : List (List ℚ)} {w : Nat}
    (h : l1.Perm l2) (hne : l1 ≠ []) (hw : ∀ r ∈ l1, r.length = w) :
    tensorMean l1 = tensorMean l2 := by
  have hne2 : l2 ≠ [] := by
    intro hx
    rw [hx] at h
    exact hne h.eq_nil
  have hw2 : ∀ r ∈ l2, r.length = w := fun r hr => hw r (h.mem_iff.2 hr)
  rw [tensorMean_eq_vmean hne hw, tensorMean_eq_vmean hne2 hw2]
  exact vmean_perm w h

theorem chunkList_length (K : Nat) (l : List (List ℚ)) :
    (chunkList K l).length = l.length / K := by
  simp [chunkList]

theorem chunkList_getD (K : Nat) (l : List (List ℚ)) (i : Nat)
    (h : i < l.length / K) :
    (chunkList K l).getD i [] = (l.drop (i * K)).take K := by
  rw [List.getD_eq_getElem _ _ (by simpa [chunkList_length] using h)]
  simp [chunkList]

theorem chunk_block_length {K : Nat} {l : List (List ℚ)} {i : Nat}
    (h : i < l.length / K) :
    ((l.drop (i * K)).take K).length = K := by
  have h1 : (i + 1) * K ≤ (l.length / K) * K :=
    Nat.mul_le_mul_right K h
  have h2 : (l.length / K) * K ≤ l.length := Nat.div_mul_le_self _ _
  have h4 : (i + 1) * K = i * K + K := Nat.succ_mul i K
  rw [List.length_take, List.length_drop]
  omega

theorem chunkList_map (K : Nat) (f : List ℚ → List ℚ) (l : List (List ℚ)) :
    chunkList K (l.map f) = (chunkList K l).map (fun blk => blk.map f) := by
  unfold chunkList
  rw [List.length_map, List.map_map]
  apply List.map_congr_left
  intro i _
  simp [List.map_take, List.map_drop]

/-- Two zipWiths over chunk lists agree when the per-block summaries
agree. -/
theorem zipWith_chunk_map_eq (F : List ℚ → List ℚ → List ℚ)
    (g1 g2 : List (List ℚ) → List ℚ) (node : List (List ℚ))
    (c1 c2 : List (List (List ℚ))) (hc : c1.length = c2.length)
    (hg : ∀ i, i < c1.length → g1 (c1.getD i []) = g2 (c2.getD i [])) :
    List.zipWith (fun nf blk => F nf (g1 blk)) node c1 =
      List.zipWith (fun nf blk => F nf (g2 blk)) node c2 := by
  apply List.ext_getElem
  · rw [List.length_zipWith, List.length_zipWith, hc]
  · intro n h1 h2
    rw [List.getElem_zipWith, List.getElem_zipWith]
    have hn : n < c1.length := by
      rw [List.length_zipWith] at h1
      omega
    rw [← List.getD_eq_getElem c1 [] hn, ← List.getD_eq_getElem c2 []
      (hc ▸ hn), hg n hn]

/-- C8: the Mean, MaxPool and MeanPool aggregators are invariant to the
order of the `K` neighbor rows inside each node's block of `neib_feats`:
if every node's block of `neib2` is a permutation of its block of `neib1`
(in particular when a single node's block is permuted and the rest are
untouched), the three forwards are unchanged — for every batch, every
`K ≥ 1` and every parameter setting `fc_node`, `fc_neib`, `mlpW`, `mlpB`,
`combine_fn` and activation. -/
theorem claim_C8_order_invariance (fc_node fc_neib mlpW : List (List ℚ))
    (mlpB : List ℚ) (combine : List ℚ → List ℚ → List ℚ)
    (act : List ℚ → List ℚ) (node_feats neib1 neib2 : List (List ℚ))
    (K d : Nat) (hK : 1 ≤ K)
    (hlen1 : neib1.length = node_feats.length * K)
    (hlen2 : neib2.length = node_feats.length * K)
    (hw1 : ∀ r ∈ neib1, r.length = d) (hw2 : ∀ r ∈ neib2, r.length = d)
    (hperm : ∀ i, i < node_feats.length →
      ((chunkList K neib1).getD i []).Perm ((chunkList K neib2).getD i [])) :
    MeanAggregator.forward fc_node fc_neib combine act node_feats neib1 =
      MeanAggregator.forward fc_node fc_neib combine act node_feats neib2 ∧
    MaxPoolAggregator.forward mlpW mlpB fc_node fc_neib combine act
        node_feats neib1 =
      MaxPoolAggregator.forward mlpW mlpB fc_node fc_neib combine act
        node_feats neib2 ∧
    MeanPoolAggregator.forward mlpW mlpB fc_node fc_neib combine act
        node_feats neib1 =
      MeanPoolAggregator.forward mlpW mlpB fc_node fc_neib combine act
        node_feats neib2 := by
  rcases Nat.eq_zero_or_pos node_feats.length with hb | hb
  · have hnode : node_feats = [] := List.length_eq_zero.1 hb
    subst hnode
    exact ⟨rfl, rfl, rfl⟩
  · have hK0 : 0 < K := hK
    have hdiv1 : neib1.length / K = node_feats.length := by
      rw [hlen1, Nat.mul_div_cancel _ hK0]
    have hdiv2 : neib2.length / K = node_feats.length := by
      rw [hlen2, Nat.mul_div_cancel _ hK0]
    have hcl1 : (chunkList K neib1).length = node_feats.length := by
      rw [chunkList_length, hdiv1]
    have hcl2 : (chunkList K neib2).length = node_feats.length := by
      rw [chunkList_length, hdiv2]
    have hblk1 : ∀ i, i < node_feats.length →
        ((chunkList K neib1).getD i []).length = K := by
      intro i hi
      rw [chunkList_getD K neib1 i (by rw [hdiv1]; exact hi)]
      exact chunk_block_length (by rw [hdiv1]; exact hi)
    have hne1 : neib1 ≠ [] :=
      List.length_pos.1 (by rw [hlen1]; exact Nat.mul_pos hb hK0)
    have hne2 : neib2 ≠ [] :=
      List.length_pos.1 (by rw [hlen2]; exact Nat.mul_pos hb hK0)
    have hd1 : (neib1.headD []).length = d :=
      hw1 _ (headD_mem_of_ne_nil neib1 [] hne1)
    have hd2 : (neib2.headD []).length = d :=
      hw2 _ (headD_mem_of_ne_nil neib2 [] hne2)
    have meanrw : ∀ nb : List (List ℚ),
        nb.length = node_feats.length * K → (nb.headD []).length = d →
        MeanAggregator.forward fc_node fc_neib combine act node_feats nb =
          List.zipWith (fun nf blk => act (combine (linearNB fc_node nf)
            (linearNB fc_neib (vmean d blk)))) node_feats
            (chunkList K nb) := by
      intro nb hnb hhd
      simp only [MeanAggregator.forward]
      rw [hhd, hnb, Nat.mul_div_cancel_left _ hb]
    have poolrw : ∀ (pool : List (List ℚ) → List ℚ) (nb : List (List ℚ)),
        nb.length = node_feats.length * K →
        PoolAggregator.forward mlpW mlpB fc_node fc_neib pool combine act
            node_feats nb =
          List.zipWith (fun nf blk => act (combine (linearNB fc_node nf)
            (linearNB fc_neib
              (pool (blk.map (fun r => (linear mlpW mlpB r).map relu))))))
            node_feats (chunkList K nb) := by
      intro pool nb hnb
      simp only [PoolAggregator.forward]
      rw [List.length_map, hnb, Nat.mul_div_cancel_left _ hb, chunkList_map,
        List.zipWith_map_right]
    refine ⟨?_, ?_, ?_⟩
    · rw [meanrw neib1 hlen1 hd1, meanrw neib2 hlen2 hd2]
      apply zipWith_chunk_map_eq
        (fun nf v => act (combine (linearNB fc_node nf) (linearNB fc_neib v)))
        (fun blk => vmean d blk) (fun blk => vmean d blk) node_feats _ _
        (by rw [hcl1, hcl2])
      intro i hi
      rw [hcl1] at hi
      exact vmean_perm d (hperm i hi)
    · unfold MaxPoolAggregator.forward
      rw [poolrw tensorMax neib1 hlen1, poolrw tensorMax neib2 hlen2]
      apply zipWith_chunk_map_eq
        (fun nf v => act (combine (linearNB fc_node nf) (linearNB fc_neib v)))
        (fun blk => tensorMax (blk.map (fun r => (linear mlpW mlpB r).map relu)))
        (fun blk => tensorMax (blk.map (fun r => (linear mlpW mlpB r).map relu)))
        node_feats _ _ (by rw [hcl1, hcl2])
      intro i hi
      rw [hcl1] at hi
      exact vmaxList_perm ((hperm i hi).map _)
    · unfold MeanPoolAggregator.forward
      rw [poolrw tensorMean neib1 hlen1, poolrw tensorMean neib2 hlen2]
      apply zipWith_chunk_map_eq
        (fun nf v => act (combine (linearNB fc_node nf) (linearNB fc_neib v)))
        (fun blk => tensorMean (blk.map (fun r => (linear mlpW mlpB r).map relu)))
        (fun blk => tensorMean (blk.map (fun r => (linear mlpW mlpB r).map relu)))
        node_feats _ _ (by rw [hcl1, hcl2])
      intro i hi
      rw [hcl1] at hi
      have hmapne : ((chunkList K neib1).getD i []).map
          (fun r => (linear mlpW mlpB r).map relu) ≠ [] := by
        rw [ne_eq, List.map_eq_nil_iff, ← List.length_eq_zero, hblk1 i hi]
        omega
      have hmapw : ∀ r ∈ ((chunkList K neib1).getD i []).map
            (fun r => (linear mlpW mlpB r).map relu),
          r.length = min mlpW.length mlpB.length := by
        intro r hr
        obtain ⟨x, _, rfl⟩ := List.mem_map.1 hr
        rw [List.length_map, linear_length]
      exact tensorMean_perm_of_width ((hperm i hi).map _) hmapne hmapw

/-- C8 (witness): one node, two neighbors swapped. -/
theorem claim_C8_order_invariance_witness :
    MeanAggregator.forward [[1, 0]] [[0, 1]] (fun u v => u ++ v)
        (fun v => v) [[1, 1]] [[1, 2], [3, 4]] =
      MeanAggregator.forward [[1, 0]] [[0, 1]] (fun u v => u ++ v)
        (fun v => v) [[1, 1]] [[3, 4], [1, 2]] ∧
    MaxPoolAggregator.forward [[1, 0], [0, 1]] [0, 0] [[1, 0]] [[0, 1]]
        (fun u v => u ++ v) (fun v => v) [[1, 1]] [[1, 2], [3, 4]] =
      MaxPoolAggregator.forward [[1, 0], [0, 1]] [0, 0] [[1, 0]] [[0, 1]]
        (fun u v => u ++ v) (fun v => v) [[1, 1]] [[3, 4], [1, 2]] ∧
    MeanPoolAggregator.forward [[1, 0], [0, 1]] [0, 0] [[1, 0]] [[0, 1]]
        (fun u v => u ++ v) (fun v => v) [[1, 1]] [[1, 2], [3, 4]] =
      MeanPoolAggregator.forward [[1, 0], [0, 1]] [0, 0] [[1, 0]] [[0, 1]]
        (fun u v => u ++ v) (fun v => v) [[1, 1]] [[3, 4], [1, 2]] :=
  claim_C8_order_invariance [[1, 0]] [[0, 1]] [[1, 0], [0, 1]] [0, 0]
    (fun u v => u ++ v) (fun v => v) [[1, 1]] [[1, 2], [3, 4]]
    [[3, 4], [1, 2]] 2 2 (by decide) (by decide) (by decide) (by decide)
    (by decide) (by decide)

/-- C10: `LSTMAggregator` construction fails on the unconditional evenness
assertion for every odd `hidden_dim`, regardless of the `bidirectional`
flag; for every even `hidden_dim` it succeeds, with per-direction hidden
size `hidden_dim` when unidirectional and `hidden_dim / 2` when
bidirectional. -/
theorem claim_C10_lstm_evenness (hidden_dim : Nat) (bidirectional : Bool) :
    (hidden_dim % 2 ≠ 0 →
      LSTMAggregator.init hidden_dim bidirectional =
        .error "LSTMAggregator: hiddem_dim % 2 != 0") ∧
    (hidden_dim % 2 = 0 →
      LSTMAggregator.init hidden_dim bidirectional =
        .ok (if bidirectional then hidden_dim / 2 else hidden_dim)) := by
  constructor
  · intro h
    simp [LSTMAggregator.init, h]
  · intro h
    cases bidirectional <;> simp [LSTMAggregator.init, h]

/-- C10 (witness). -/
theorem claim_C10_lstm_evenness_witness :
    (LSTMAggregator.init 7 true =
      .error "LSTMAggregator: hiddem_dim % 2 != 0") ∧
    (LSTMAggregator.init 8 true = .ok (if true then 8 / 2 else 8)) :=
  ⟨(claim_C10_lstm_evenness 7 true).1 (by decide),
   (claim_C10_lstm_evenness 8 true).2 (by decide)⟩

end GraphSage
